import Mathlib

/-!
Verification of the dotsmap point-classification engine.

The development shallowly embeds the JavaScript sources
(fast-worker.js and cache-manager.js) into Lean:

* JavaScript numbers that our claims touch are modelled as rationals;
  the handful of places where NaN and infinities matter use an explicit
  JsNumber type.  The float constant Math.PI is treated as a parameter
  pi so that degree conversions such as radius * 180 / pi stay exact.
* the d3 library calls (geoContains, geoDistance, projection.invert,
  geoBounds, geoCentroid) are external collaborators of the repository
  and are passed in as function parameters.
* stateful JavaScript (the worker module state, the cache Map objects)
  becomes explicit state passing over concrete data structures.
-/

/-- The truncating integer conversion used by the JavaScript remainder
operator: JS computes x % y as x - y * trunc(x / y). -/
def jsTrunc (q : ℚ) : Int := if 0 ≤ q then ⌊q⌋ else ⌈q⌉

/-- JavaScript remainder on numbers: x % y = x - y * trunc(x / y); the
result carries the sign of the dividend.  (For y = 0 JavaScript yields
NaN; the claims only use nonzero moduli.) -/
def jsMod (x y : ℚ) : ℚ := x - y * jsTrunc (x / y)

/-- JavaScript Math.round: half-up rounding toward plus infinity. -/
def jsRound (q : ℚ) : Int := ⌊q + 1/2⌋

/-- fast-worker.js wrapLongitude:
lon = ((lon + 180) % 360) - 180; if lon <= -180 lon += 360;
if lon > 180 lon -= 360. -/
def wrapLongitude (lon : ℚ) : ℚ :=
  let l := jsMod (lon + 180) 360 - 180
  let l := if l ≤ -180 then l + 360 else l
  if l > 180 then l - 360 else l

/-- JS remainder on integers, matching jsMod on integer inputs
(truncating division, remainder keeps the sign of the dividend). -/
def jsModInt (x y : Int) : Int := Int.tmod x y

/-- The longitude normalization applied to grid-cell keys in both
initializeSpatialGrid and getGridCell: ((g + 180) % 360) - 180 on the
already-floored multiple of 10. -/
def jsWrapKey (g : Int) : Int := jsModInt (g + 180) 360 - 180

/-- Claim C5: the longitude wrap function satisfies wrap(181) == -179,
wrap(-181) == 179, wrap(180) == 180, and wrap(-180) == -180.
This is refuted: on input -180 the first step yields -180, the
lon <= -180 branch fires and adds 360, and the final lon > 180 guard
does not fire, so wrapLongitude (-180) = 180, not -180. -/
theorem c5_wrap_neg180_counterexample : wrapLongitude (-180) ≠ -180 := by
  norm_num [wrapLongitude, jsMod, jsTrunc,
    show (⌈-(1/360:ℚ)⌉:Int) = 0 from by norm_num,
    show (⌊(361/360:ℚ)⌋:Int) = 1 from by norm_num]

/-- Claim C5 (amended): wrap(181) = -179, wrap(-181) = 179,
wrap(180) = 180, and wrap(-180) = 180 (the wrap normalizes -180 to the
equivalent longitude 180; the range of the function is (-180, 180]). -/
theorem c5_wrap_values :
    wrapLongitude 181 = -179 ∧ wrapLongitude (-181) = 179 ∧
    wrapLongitude 180 = 180 ∧ wrapLongitude (-180) = 180 := by
  norm_num [wrapLongitude, jsMod, jsTrunc,
    show (⌈-(1/360:ℚ)⌉:Int) = 0 from by norm_num,
    show (⌊(361/360:ℚ)⌋:Int) = 1 from by norm_num]

/-! ## Cache manager (cache-manager.js, class CacheManager)

The two cache tiers are modelled as insertion-ordered association lists
(the iteration order of a JavaScript Map and of plain-object keys is
insertion order).  localStorage stores the serialized payload; the model
keeps the value itself and a sizeFn parameter standing for the length of
JSON.stringify(data). -/

/-- Query fingerprint parameters (CacheManager.generateKey input). -/
structure CacheParams where
  projectionName : String
  width : Nat
  height : Nat
  spacing : Nat
  showOceanDots : Bool
deriving DecidableEq

/-- cache-manager.js generateKey: the template string
projectionName-width-height-spacing-showOceanDots. -/
def generateKey (p : CacheParams) : String :=
  p.projectionName ++ "-" ++ toString p.width ++ "-" ++ toString p.height ++
    "-" ++ toString p.spacing ++ "-" ++ toString p.showOceanDots

/-- Metadata record kept per persistent-tier entry. -/
structure CacheMeta where
  created : Nat
  lastAccess : Nat
  size : Nat
deriving DecidableEq

/-- JS Map.has on an insertion-ordered association list. -/
def jsMapHas {κ ν : Type} [DecidableEq κ] (m : List (κ × ν)) (k : κ) : Bool :=
  m.any (fun e => decide (e.1 = k))

/-- JS Map.get on an insertion-ordered association list. -/
def jsMapGet {κ ν : Type} [DecidableEq κ] (m : List (κ × ν)) (k : κ) : Option ν :=
  (m.find? (fun e => decide (e.1 = k))).map (fun e => e.2)

/-- JS Map.set: overwrite in place when the key exists (insertion order
is unchanged), otherwise append at the end. -/
def jsMapSet {κ ν : Type} [DecidableEq κ] (m : List (κ × ν)) (k : κ) (v : ν) :
    List (κ × ν) :=
  if jsMapHas m k then m.map (fun e => if e.1 = k then (k, v) else e)
  else m ++ [(k, v)]

/-- Deleting the key returned by memoryCache.keys().next().value, the
first key in insertion order (CacheManager.enforceSizeLimit). -/
def jsMapDeleteFirst {κ ν : Type} [DecidableEq κ] (m : List (κ × ν)) : List (κ × ν) :=
  match m with
  | [] => []
  | e :: _ => m.filter (fun x => decide (x.1 ≠ e.1))

/-- CacheManager.enforceSizeLimit: when the memory tier holds more than
maxMemoryItems entries, remove the oldest (first-inserted) entry. -/
def enforceSizeLimit {ν : Type} (maxMemoryItems : Nat) (m : List (String × ν)) :
    List (String × ν) :=
  if m.length > maxMemoryItems then jsMapDeleteFirst m else m

/-- Configuration of a CacheManager instance: constructor arguments plus
the serialized-size function standing for JSON.stringify(data).length. -/
structure CMConfig (ν : Type) where
  maxMemoryItems : Nat
  useLocalStorage : Bool
  sizeFn : ν → Nat

/-- The mutable state of a CacheManager: the in-memory Map, the
localStorage records under the dotsmap_cache_ prefix, and the metadata
object. -/
structure CMState (ν : Type) where
  memoryCache : List (String × ν)
  storage : List (String × ν)
  metadata : List (String × CacheMeta)

/-- CacheManager.set: store in the memory tier and enforce its size
limit; then, when localStorage is enabled, refuse entries serializing to
more than 4 MiB (early return leaves storage and metadata untouched),
otherwise write the payload and create or refresh the metadata record. -/
def CacheManager.set {ν : Type} (cfg : CMConfig ν) (now : Nat) (st : CMState ν)
    (params : CacheParams) (data : ν) : CMState ν :=
  let key := generateKey params
  let mem := enforceSizeLimit cfg.maxMemoryItems (jsMapSet st.memoryCache key data)
  if cfg.useLocalStorage then
    if cfg.sizeFn data > 4 * 1024 * 1024 then
      { st with memoryCache := mem }
    else
      { memoryCache := mem,
        storage := jsMapSet st.storage key data,
        metadata :=
          if jsMapHas st.metadata key then
            st.metadata.map (fun e =>
              if e.1 = key then (key, { e.2 with lastAccess := now }) else e)
          else
            jsMapSet st.metadata key
              { created := now, lastAccess := now, size := cfg.sizeFn data } }
  else { st with memoryCache := mem }

/-- CacheManager.get: memory tier first (a hit mutates nothing); on a
localStorage hit, promote the entry into the memory tier (enforcing its
size limit) and refresh the metadata lastAccess. -/
def CacheManager.get {ν : Type} (cfg : CMConfig ν) (now : Nat) (st : CMState ν)
    (params : CacheParams) : CMState ν × Option ν :=
  let key := generateKey params
  if jsMapHas st.memoryCache key then (st, jsMapGet st.memoryCache key)
  else if cfg.useLocalStorage then
    match jsMapGet st.storage key with
    | some cached =>
      ({ st with
          memoryCache :=
            enforceSizeLimit cfg.maxMemoryItems (jsMapSet st.memoryCache key cached),
          metadata :=
            if jsMapHas st.metadata key then
              st.metadata.map (fun e =>
                if e.1 = key then (key, { e.2 with lastAccess := now }) else e)
            else st.metadata },
        some cached)
    | none => (st, none)
  else (st, none)

/-- One externally visible cache operation, with the Date.now() value it
observes. -/
inductive CacheOp (ν : Type) where
  | get (params : CacheParams) (now : Nat)
  | set (params : CacheParams) (data : ν) (now : Nat)

/-- Run a sequence of get and set operations against a cache state. -/
def runCacheOps {ν : Type} (cfg : CMConfig ν) (st : CMState ν) :
    List (CacheOp ν) → CMState ν
  | [] => st
  | CacheOp.get p now :: rest => runCacheOps cfg (CacheManager.get cfg now st p).1 rest
  | CacheOp.set p d now :: rest => runCacheOps cfg (CacheManager.set cfg now st p d) rest

/-! ### Cache lemmas -/

/-- Keys of an association list, in insertion order. -/
def jsMapKeys {κ ν : Type} (m : List (κ × ν)) : List κ := m.map Prod.fst

theorem jsMapHas_false_iff {κ ν : Type} [DecidableEq κ] (m : List (κ × ν)) (k : κ) :
    jsMapHas m k = false ↔ ∀ e ∈ m, e.1 ≠ k := by
  simp [jsMapHas]

theorem jsMapSet_memoryOverwrite_keys {κ ν : Type} [DecidableEq κ]
    (m : List (κ × ν)) (k : κ) (v : ν) :
    jsMapKeys (m.map (fun e => if e.1 = k then (k, v) else e)) = jsMapKeys m := by
  simp only [jsMapKeys, List.map_map]
  apply List.map_congr_left
  intro e _
  by_cases h : e.1 = k <;> simp [h]

theorem jsMapSet_keys_nodup {κ ν : Type} [DecidableEq κ]
    (m : List (κ × ν)) (k : κ) (v : ν) (h : (jsMapKeys m).Nodup) :
    (jsMapKeys (jsMapSet m k v)).Nodup := by
  unfold jsMapSet
  cases hk : jsMapHas m k with
  | true => simpa [jsMapSet_memoryOverwrite_keys] using h
  | false =>
    have hnk : ∀ e ∈ m, e.1 ≠ k := (jsMapHas_false_iff m k).mp hk
    simp only [Bool.false_eq_true, if_false, jsMapKeys, List.map_append]
    rw [List.nodup_append]
    refine ⟨h, by simp, ?_⟩
    intro a ha hb
    simp only [List.map_cons, List.map_nil, List.mem_singleton] at hb
    subst hb
    simp only [jsMapKeys, List.mem_map] at ha
    obtain ⟨e, he, rfl⟩ := ha
    exact hnk e he rfl

theorem jsMapSet_length_le {κ ν : Type} [DecidableEq κ]
    (m : List (κ × ν)) (k : κ) (v : ν) :
    (jsMapSet m k v).length ≤ m.length + 1 := by
  unfold jsMapSet
  by_cases hk : jsMapHas m k <;> simp [hk]

theorem jsMapDeleteFirst_length {κ ν : Type} [DecidableEq κ] (m : List (κ × ν)) :
    (jsMapDeleteFirst m).length + 1 ≤ m.length ∨ m = [] := by
  cases m with
  | nil => exact Or.inr rfl
  | cons e t =>
    left
    simp only [jsMapDeleteFirst, List.filter_cons]
    have : (decide (e.1 ≠ e.1)) = false := by simp
    rw [this]
    simpa [Nat.succ_le_succ_iff] using List.length_filter_le _ t

theorem enforceSizeLimit_length {ν : Type} (maxItems : Nat) (m : List (String × ν))
    (h : m.length ≤ maxItems + 1) :
    (enforceSizeLimit maxItems m).length ≤ maxItems := by
  unfold enforceSizeLimit
  by_cases hl : m.length > maxItems
  · rw [if_pos hl]
    rcases jsMapDeleteFirst_length m with h1 | h1
    · omega
    · subst h1; simp at hl
  · rw [if_neg hl]; omega

theorem jsMapDeleteFirst_keys_sublist {κ ν : Type} [DecidableEq κ] (m : List (κ × ν)) :
    (jsMapKeys (jsMapDeleteFirst m)).Sublist (jsMapKeys m) := by
  cases m with
  | nil => simp [jsMapDeleteFirst]
  | cons e t =>
    simp only [jsMapDeleteFirst, jsMapKeys]
    exact List.Sublist.map Prod.fst (List.filter_sublist (e :: t))

theorem enforceSizeLimit_keys_nodup {ν : Type} (maxItems : Nat)
    (m : List (String × ν)) (h : (jsMapKeys m).Nodup) :
    (jsMapKeys (enforceSizeLimit maxItems m)).Nodup := by
  unfold enforceSizeLimit
  by_cases hl : m.length > maxItems
  · simpa [hl] using h.sublist (jsMapDeleteFirst_keys_sublist m)
  · simpa [hl] using h

/-- The memory-tier invariant: bounded size and pairwise distinct keys. -/
def MemInv {ν : Type} (maxItems : Nat) (m : List (String × ν)) : Prop :=
  m.length ≤ maxItems ∧ (jsMapKeys m).Nodup

theorem memInv_enforce_set {ν : Type} (maxItems : Nat) (m : List (String × ν))
    (k : String) (v : ν) (h : MemInv maxItems m) :
    MemInv maxItems (enforceSizeLimit maxItems (jsMapSet m k v)) := by
  refine ⟨enforceSizeLimit_length _ _ ?_, enforceSizeLimit_keys_nodup _ _ ?_⟩
  · exact le_trans (jsMapSet_length_le m k v) (by have h1 := h.1; omega)
  · exact jsMapSet_keys_nodup m k v h.2

theorem cacheSet_memoryCache {ν : Type} (cfg : CMConfig ν) (now : Nat)
    (st : CMState ν) (p : CacheParams) (d : ν) :
    (CacheManager.set cfg now st p d).memoryCache =
      enforceSizeLimit cfg.maxMemoryItems (jsMapSet st.memoryCache (generateKey p) d) := by
  unfold CacheManager.set
  split
  · split <;> rfl
  · rfl

theorem cacheGet_memInv {ν : Type} (cfg : CMConfig ν) (now : Nat)
    (st : CMState ν) (p : CacheParams)
    (h : MemInv cfg.maxMemoryItems st.memoryCache) :
    MemInv cfg.maxMemoryItems (CacheManager.get cfg now st p).1.memoryCache := by
  simp only [CacheManager.get]
  split
  · exact h
  · split
    · split
      · exact memInv_enforce_set _ _ _ _ h
      · exact h
    · exact h

theorem runCacheOps_memInv {ν : Type} (cfg : CMConfig ν) (ops : List (CacheOp ν))
    (st : CMState ν) (h : MemInv cfg.maxMemoryItems st.memoryCache) :
    MemInv cfg.maxMemoryItems (runCacheOps cfg st ops).memoryCache := by
  induction ops generalizing st with
  | nil => exact h
  | cons op rest ih =>
    cases op with
    | get p now => exact ih _ (cacheGet_memInv cfg now st p h)
    | set p d now =>
      refine ih _ ?_
      rw [cacheSet_memoryCache]
      exact memInv_enforce_set _ _ _ _ h

theorem jsMapDeleteFirst_eq_tail {κ ν : Type} [DecidableEq κ]
    (m : List (κ × ν)) (h : (jsMapKeys m).Nodup) :
    jsMapDeleteFirst m = m.tail := by
  cases m with
  | nil => rfl
  | cons e t =>
    simp only [jsMapDeleteFirst, List.filter_cons, List.tail_cons]
    have he : (decide (e.1 ≠ e.1)) = false := by simp
    rw [he]
    apply List.filter_eq_self.mpr
    intro x hx
    simp only [decide_eq_true_eq]
    intro hxe
    simp only [jsMapKeys, List.map_cons, List.nodup_cons] at h
    exact h.1 (hxe ▸ List.mem_map_of_mem Prod.fst hx)

theorem jsMapGet_overwrite {κ ν : Type} [DecidableEq κ]
    (m : List (κ × ν)) (k : κ) (v : ν) (h : jsMapHas m k = true) :
    jsMapGet (m.map (fun e => if e.1 = k then (k, v) else e)) k = some v := by
  induction m with
  | nil => simp [jsMapHas] at h
  | cons e t ih =>
    by_cases he : e.1 = k
    · simp only [List.map_cons, if_pos he, jsMapGet]
      rw [List.find?_cons_of_pos _ (by simp)]
      rfl
    · simp only [List.map_cons, if_neg he, jsMapGet]
      rw [List.find?_cons_of_neg _ (by simp [he])]
      have ht : jsMapHas t k = true := by
        simp only [jsMapHas, List.any_cons, decide_eq_true_eq] at h
        rcases Bool.or_eq_true_iff.mp h with h1 | h1
        · exact absurd (of_decide_eq_true h1) he
        · exact h1
      exact ih ht

theorem jsMapGet_append_new {κ ν : Type} [DecidableEq κ]
    (m : List (κ × ν)) (k : κ) (v : ν) (h : jsMapHas m k = false) :
    jsMapGet (m ++ [(k, v)]) k = some v := by
  induction m with
  | nil =>
    simp only [List.nil_append, jsMapGet]
    rw [List.find?_cons_of_pos _ (by simp)]
    rfl
  | cons e t ih =>
    have hek : e.1 ≠ k := ((jsMapHas_false_iff _ k).mp h) e (by simp)
    have ht : jsMapHas t k = false := by
      rw [jsMapHas_false_iff]
      intro x hx
      exact ((jsMapHas_false_iff _ k).mp h) x (by simp [hx])
    simp only [List.cons_append, jsMapGet]
    rw [List.find?_cons_of_neg _ (by simp [hek])]
    exact ih ht

theorem jsMapHas_of_get_some {κ ν : Type} [DecidableEq κ]
    (m : List (κ × ν)) (k : κ) (v : ν) (h : jsMapGet m k = some v) :
    jsMapHas m k = true := by
  unfold jsMapGet at h
  unfold jsMapHas
  cases hf : List.find? (fun e => decide (e.1 = k)) m with
  | none => rw [hf] at h; simp at h
  | some e =>
    have hp := List.find?_some hf
    exact List.any_eq_true.mpr ⟨e, List.mem_of_find?_eq_some hf, hp⟩

theorem jsMapGet_enforce_set {ν : Type} (maxItems : Nat) (m : List (String × ν))
    (k : String) (v : ν) (hmax : 1 ≤ maxItems) (hinv : MemInv maxItems m) :
    jsMapGet (enforceSizeLimit maxItems (jsMapSet m k v)) k = some v := by
  cases hk : jsMapHas m k with
  | true =>
    have hset : jsMapSet m k v = m.map (fun e => if e.1 = k then (k, v) else e) := by
      unfold jsMapSet; rw [if_pos hk]
    rw [hset]
    unfold enforceSizeLimit
    rw [if_neg (by simp only [List.length_map]; have := hinv.1; omega)]
    exact jsMapGet_overwrite m k v hk
  | false =>
    have hset : jsMapSet m k v = m ++ [(k, v)] := by
      unfold jsMapSet; rw [if_neg (by simp [hk])]
    have hnodup := jsMapSet_keys_nodup m k v hinv.2
    rw [hset] at hnodup
    rw [hset]
    unfold enforceSizeLimit
    by_cases hl : (m ++ [(k, v)]).length > maxItems
    · rw [if_pos hl, jsMapDeleteFirst_eq_tail _ hnodup]
      cases m with
      | nil => simp at hl; omega
      | cons e t =>
        simp only [List.cons_append, List.tail_cons]
        apply jsMapGet_append_new
        rw [jsMapHas_false_iff]
        intro x hx
        exact ((jsMapHas_false_iff _ k).mp hk) x (by simp [hx])
    · rw [if_neg hl]
      exact jsMapGet_append_new m k v hk

/-- Claim C8: the in-memory cache tier never exceeds maxMemoryItems
entries after any sequence of get and set operations from a fresh
instance; when an insertion pushes it over capacity, the evicted entry
is the first key in insertion order (the least-recently-inserted one);
and a memory-tier hit leaves the whole state, in particular the
insertion order of the memory tier, unchanged. -/
theorem c8_memory_tier_lru {ν : Type} (cfg : CMConfig ν) (st₀ : CMState ν)
    (ops : List (CacheOp ν)) (h₀ : st₀.memoryCache = []) :
    ((runCacheOps cfg st₀ ops).memoryCache.length ≤ cfg.maxMemoryItems) ∧
    (∀ (p : CacheParams) (d : ν) (now : Nat),
        (jsMapSet (runCacheOps cfg st₀ ops).memoryCache (generateKey p) d).length >
            cfg.maxMemoryItems →
        (CacheManager.set cfg now (runCacheOps cfg st₀ ops) p d).memoryCache =
          (jsMapSet (runCacheOps cfg st₀ ops).memoryCache (generateKey p) d).tail) ∧
    (∀ (st : CMState ν) (p : CacheParams) (now : Nat),
        jsMapHas st.memoryCache (generateKey p) = true →
        CacheManager.get cfg now st p = (st, jsMapGet st.memoryCache (generateKey p))) := by
  have hinv : MemInv cfg.maxMemoryItems (runCacheOps cfg st₀ ops).memoryCache := by
    apply runCacheOps_memInv
    rw [h₀]
    exact ⟨by simp, by simp [jsMapKeys]⟩
  refine ⟨hinv.1, ?_, ?_⟩
  · intro p d now hover
    rw [cacheSet_memoryCache]
    unfold enforceSizeLimit
    rw [if_pos hover]
    exact jsMapDeleteFirst_eq_tail _ (jsMapSet_keys_nodup _ _ _ hinv.2)
  · intro st p now hhit
    simp only [CacheManager.get]
    rw [if_pos hhit]

/-- Claim C8 witness: three inserts into a capacity-2 cache started
empty keep the memory tier at no more than 2 entries. -/
theorem c8_memory_tier_lru_witness :
    (runCacheOps (ν := Nat) ⟨2, false, fun _ => 0⟩ ⟨[], [], []⟩
        [CacheOp.set ⟨"p", 1, 0, 0, false⟩ 10 0,
         CacheOp.set ⟨"p", 2, 0, 0, false⟩ 20 1,
         CacheOp.set ⟨"p", 3, 0, 0, false⟩ 30 2]).memoryCache.length ≤ 2 :=
  (c8_memory_tier_lru ⟨2, false, fun _ => 0⟩ ⟨[], [], []⟩ _ rfl).1

/-- Claim C10: a set whose payload serializes to more than the 4 MiB
persistent-tier ceiling still stores the entry in the memory tier, so an
immediately following get for the same fingerprint returns it from the
memory tier, while the localStorage payload records and the metadata are
left exactly as they were. -/
theorem c10_oversized_entry {ν : Type} (cfg : CMConfig ν) (st : CMState ν)
    (p : CacheParams) (d : ν) (now now2 : Nat)
    (hls : cfg.useLocalStorage = true)
    (hbig : cfg.sizeFn d > 4 * 1024 * 1024)
    (hmax : 1 ≤ cfg.maxMemoryItems)
    (hinv : MemInv cfg.maxMemoryItems st.memoryCache) :
    (CacheManager.set cfg now st p d).storage = st.storage ∧
    (CacheManager.set cfg now st p d).metadata = st.metadata ∧
    (CacheManager.get cfg now2 (CacheManager.set cfg now st p d) p).2 = some d := by
  have hset : CacheManager.set cfg now st p d =
      { st with
        memoryCache :=
          enforceSizeLimit cfg.maxMemoryItems
            (jsMapSet st.memoryCache (generateKey p) d) } := by
    simp only [CacheManager.set]
    rw [if_pos hls, if_pos hbig]
  have hget := jsMapGet_enforce_set cfg.maxMemoryItems st.memoryCache
    (generateKey p) d hmax hinv
  refine ⟨by rw [hset], by rw [hset], ?_⟩
  rw [hset]
  simp only [CacheManager.get]
  rw [if_pos (jsMapHas_of_get_some _ _ _ hget)]
  exact hget

/-- Claim C10 witness: a 5000000-byte entry set into a fresh cache is
returned by the following get while storage and metadata stay empty. -/
theorem c10_oversized_entry_witness :
    (CacheManager.set (ν := Nat) ⟨10, true, fun _ => 5000000⟩ 0 ⟨[], [], []⟩
        ⟨"p", 1, 0, 0, false⟩ 42).storage = [] ∧
    (CacheManager.set (ν := Nat) ⟨10, true, fun _ => 5000000⟩ 0 ⟨[], [], []⟩
        ⟨"p", 1, 0, 0, false⟩ 42).metadata = [] ∧
    (CacheManager.get (ν := Nat) ⟨10, true, fun _ => 5000000⟩ 7
        (CacheManager.set (ν := Nat) ⟨10, true, fun _ => 5000000⟩ 0 ⟨[], [], []⟩
          ⟨"p", 1, 0, 0, false⟩ 42)
        ⟨"p", 1, 0, 0, false⟩).2 = some 42 :=
  c10_oversized_entry ⟨10, true, fun _ => 5000000⟩ ⟨[], [], []⟩
    ⟨"p", 1, 0, 0, false⟩ 42 0 7 rfl (by norm_num) (by norm_num)
    ⟨by simp, by simp [jsMapKeys]⟩

/-! ## Chunk scheduler (cache-manager.js, WorkerPool.calculateDotsParallel)

The x-axis chunking loop: raw per-worker column ranges are aligned to
the spacing grid (start down, end up), the start is clamped to the end
of the previously emitted chunk, the end is capped at width, and empty
or out-of-range chunks are dropped. -/

/-- Math.floor(x / spacing) * spacing on nonnegative integers. -/
def alignDown (x spacing : Nat) : Nat := x / spacing * spacing

/-- Math.ceil(x / spacing) * spacing on nonnegative integers. -/
def alignUp (x spacing : Nat) : Nat := (x + spacing - 1) / spacing * spacing

theorem alignDown_le (x spacing : Nat) : alignDown x spacing ≤ x :=
  Nat.div_mul_le_self x spacing

theorem le_alignUp (x spacing : Nat) (h : 1 ≤ spacing) : x ≤ alignUp x spacing := by
  unfold alignUp
  rw [Nat.mul_comm]
  have h1 := Nat.div_add_mod (x + spacing - 1) spacing
  have h2 : (x + spacing - 1) % spacing < spacing := Nat.mod_lt _ (by omega)
  generalize hB : spacing * ((x + spacing - 1) / spacing) = B at *
  generalize hr : (x + spacing - 1) % spacing = r at *
  omega

/-- One iteration of the chunk loop: the state is the pair of lastEndX
and the chunks pushed so far; i is the worker index. -/
def chunkStep (width spacing chunkWidth : Nat) (st : Nat × List (Nat × Nat))
    (i : Nat) : Nat × List (Nat × Nat) :=
  let startX0 := i * chunkWidth
  let endX0 := min (startX0 + chunkWidth) width
  let startX1 := alignDown startX0 spacing
  let startX2 := if startX1 < st.1 then st.1 else startX1
  let endX2 := min (alignUp endX0 spacing) width
  if startX2 < width ∧ endX2 > startX2 then (endX2, st.2 ++ [(startX2, endX2)])
  else st

/-- The chunk list computed by WorkerPool.calculateDotsParallel:
chunkWidth = ceil(width / numWorkers), then one chunkStep per worker
index, starting from lastEndX = 0 and no chunks. -/
def computeChunks (width spacing numWorkers : Nat) : List (Nat × Nat) :=
  let chunkWidth := (width + numWorkers - 1) / numWorkers
  ((List.range numWorkers).foldl (chunkStep width spacing chunkWidth) (0, [])).2

/-- The emitted chunks form a gapless chain of nonempty intervals from a
to b: each chunk starts where the previous one ended. -/
def ConsecFrom : Nat → List (Nat × Nat) → Nat → Prop
  | a, [], b => a = b
  | a, c :: t, b => c.1 = a ∧ a < c.2 ∧ ConsecFrom c.2 t b

theorem consecFrom_snoc (a b e : Nat) (l : List (Nat × Nat))
    (h : ConsecFrom a l b) (hbe : b < e) : ConsecFrom a (l ++ [(b, e)]) e := by
  induction l generalizing a with
  | nil =>
    have ha : a = b := h
    exact ⟨ha.symm, by omega, rfl⟩
  | cons c t ih =>
    obtain ⟨h1, h2, h3⟩ := h
    exact ⟨h1, h2, ih _ h3⟩

theorem consecFrom_start_le (a b : Nat) (l : List (Nat × Nat))
    (h : ConsecFrom a l b) : ∀ c ∈ l, a ≤ c.1 := by
  induction l generalizing a with
  | nil => intro c hc; simp at hc
  | cons d t ih =>
    obtain ⟨h1, h2, h3⟩ := h
    intro c hc
    rcases List.mem_cons.mp hc with rfl | hc
    · omega
    · have := ih _ h3 c hc
      omega

theorem consecFrom_pairwise (a b : Nat) (l : List (Nat × Nat))
    (h : ConsecFrom a l b) : List.Pairwise (fun c d => c.2 ≤ d.1) l := by
  induction l generalizing a with
  | nil => exact List.Pairwise.nil
  | cons c t ih =>
    obtain ⟨h1, h2, h3⟩ := h
    exact List.pairwise_cons.mpr ⟨consecFrom_start_le _ _ t h3, ih _ h3⟩

theorem consecFrom_nonempty (a b : Nat) (l : List (Nat × Nat))
    (h : ConsecFrom a l b) : ∀ c ∈ l, c.1 < c.2 := by
  induction l generalizing a with
  | nil => intro c hc; simp at hc
  | cons d t ih =>
    obtain ⟨h1, h2, h3⟩ := h
    intro c hc
    rcases List.mem_cons.mp hc with rfl | hc
    · omega
    · exact ih _ h3 c hc

theorem consecFrom_countP_zero (a b x : Nat) (l : List (Nat × Nat))
    (h : ConsecFrom a l b) (hx : x < a) :
    l.countP (fun c => decide (c.1 ≤ x ∧ x < c.2)) = 0 := by
  induction l generalizing a with
  | nil => rfl
  | cons c t ih =>
    obtain ⟨h1, h2, h3⟩ := h
    rw [List.countP_cons]
    have hc : (decide (c.1 ≤ x ∧ x < c.2)) = false := by
      simp only [decide_eq_false_iff_not]
      omega
    rw [hc, ih _ h3 (by omega)]
    rfl

theorem consecFrom_countP_one (a b x : Nat) (l : List (Nat × Nat))
    (h : ConsecFrom a l b) (hxa : a ≤ x) (hxb : x < b) :
    l.countP (fun c => decide (c.1 ≤ x ∧ x < c.2)) = 1 := by
  induction l generalizing a with
  | nil =>
    have ha : a = b := h
    omega
  | cons c t ih =>
    obtain ⟨h1, h2, h3⟩ := h
    rw [List.countP_cons]
    by_cases hlt : x < c.2
    · have hc : (decide (c.1 ≤ x ∧ x < c.2)) = true := by
        simp only [decide_eq_true_eq]
        omega
      rw [hc, consecFrom_countP_zero _ _ x t h3 hlt]
      rfl
    · have hc : (decide (c.1 ≤ x ∧ x < c.2)) = false := by
        simp only [decide_eq_false_iff_not]
        omega
      rw [hc, ih _ h3 (by omega)]
      rfl

theorem chunkStep_inv (width spacing cw : Nat) (hsp : 1 ≤ spacing) (hcw : 1 ≤ cw)
    (k : Nat) (st : Nat × List (Nat × Nat))
    (hc : ConsecFrom 0 st.2 st.1) (hlo : min (k * cw) width ≤ st.1)
    (hhi : st.1 ≤ width) :
    ConsecFrom 0 (chunkStep width spacing cw st k).2 (chunkStep width spacing cw st k).1 ∧
    min ((k + 1) * cw) width ≤ (chunkStep width spacing cw st k).1 ∧
    (chunkStep width spacing cw st k).1 ≤ width := by
  obtain ⟨L, chunks⟩ := st
  simp only at hc hlo hhi
  simp only [chunkStep]
  have hs1 : alignDown (k * cw) spacing ≤ k * cw := alignDown_le _ _
  have he2a : min (k * cw + cw) width ≤
      min (alignUp (min (k * cw + cw) width) spacing) width :=
    le_min (le_alignUp _ _ hsp) (min_le_right _ _)
  have he2b : min (alignUp (min (k * cw + cw) width) spacing) width ≤ width :=
    min_le_right _ _
  rw [Nat.succ_mul]
  generalize hs1g : alignDown (k * cw) spacing = s1 at *
  generalize he2g : min (alignUp (min (k * cw + cw) width) spacing) width = e2 at *
  generalize hAg : k * cw = A at *
  have hs2cases : (if s1 < L then L else s1) = L ∨
      ((if s1 < L then L else s1) = s1 ∧ L ≤ s1) := by
    by_cases hcl : s1 < L
    · left; rw [if_pos hcl]
    · right; exact ⟨by rw [if_neg hcl], by omega⟩
  by_cases hpush : (if s1 < L then L else s1) < width ∧ e2 > (if s1 < L then L else s1)
  · rw [if_pos hpush]
    have hs2L : (if s1 < L then L else s1) = L := by
      rcases hs2cases with h | ⟨h, hcl⟩
      · exact h
      · rw [h] at hpush ⊢
        rcases hpush with ⟨hp1, hp2⟩
        have : s1 = L := by
          rcases Nat.le_total (A + cw) width with hA | hA <;> omega
        rw [this]
    rw [hs2L] at hpush ⊢
    exact ⟨consecFrom_snoc 0 L e2 chunks hc hpush.2, by omega, he2b⟩
  · rw [if_neg hpush]
    refine ⟨hc, ?_, hhi⟩
    rcases Nat.lt_or_ge (if s1 < L then L else s1) width with hw | hw
    · have he : e2 ≤ (if s1 < L then L else s1) := by
        rcases Nat.lt_or_ge (if s1 < L then L else s1) e2 with h | h
        · exact absurd ⟨hw, h⟩ hpush
        · exact h
      rcases hs2cases with h | ⟨h, hcl⟩ <;> rw [h] at he hw <;> omega
    · rcases hs2cases with h | ⟨h, hcl⟩ <;> rw [h] at hw <;> omega

theorem chunkFold_inv (width spacing cw : Nat) (hsp : 1 ≤ spacing) (hcw : 1 ≤ cw)
    (k : Nat) :
    ConsecFrom 0 ((List.range k).foldl (chunkStep width spacing cw) (0, [])).2
        ((List.range k).foldl (chunkStep width spacing cw) (0, [])).1 ∧
    min (k * cw) width ≤ ((List.range k).foldl (chunkStep width spacing cw) (0, [])).1 ∧
    ((List.range k).foldl (chunkStep width spacing cw) (0, [])).1 ≤ width := by
  induction k with
  | zero => exact ⟨rfl, by simp, by simp⟩
  | succ k ih =>
    rw [List.range_succ, List.foldl_append, List.foldl_cons, List.foldl_nil]
    exact chunkStep_inv width spacing cw hsp hcw k _ ih.1 ih.2.1 ih.2.2

/-- Claim C2: for every width, spacing, workerCount at least 1, the
chunk x-ranges computed by the scheduler are pairwise disjoint, every
emitted chunk is nonempty, and every grid column x = k*spacing below
width is covered by exactly one chunk range. -/
theorem c2_chunk_partition (width spacing numWorkers : Nat)
    (hw : 1 ≤ width) (hsp : 1 ≤ spacing) (hn : 1 ≤ numWorkers) :
    List.Pairwise (fun c d => c.2 ≤ d.1) (computeChunks width spacing numWorkers) ∧
    (∀ c ∈ computeChunks width spacing numWorkers, c.1 < c.2) ∧
    ∀ x : Nat, x < width → spacing ∣ x →
      (computeChunks width spacing numWorkers).countP
        (fun c => decide (c.1 ≤ x ∧ x < c.2)) = 1 := by
  simp only [computeChunks]
  set cw := (width + numWorkers - 1) / numWorkers with hcwdef
  have hone : 0 < numWorkers := by omega
  have hcw : 1 ≤ cw := by
    rw [hcwdef]
    exact (Nat.one_le_div_iff hone).mpr (by omega)
  obtain ⟨hc, hlo, hhi⟩ := chunkFold_inv width spacing cw hsp hcw numWorkers
  have hge : width ≤ numWorkers * cw := by
    have h1 := le_alignUp width numWorkers hn
    unfold alignUp at h1
    rw [hcwdef, Nat.mul_comm]
    exact h1
  have hL : ((List.range numWorkers).foldl (chunkStep width spacing cw) (0, [])).1
      = width := by
    generalize hM : numWorkers * cw = M at *
    generalize hLg :
      ((List.range numWorkers).foldl (chunkStep width spacing cw) (0, [])).1 = L at *
    omega
  rw [hL] at hc
  refine ⟨consecFrom_pairwise 0 width _ hc, consecFrom_nonempty 0 width _ hc, ?_⟩
  intro x hx _
  exact consecFrom_countP_one 0 width x _ hc (Nat.zero_le x) hx

/-- Claim C2 witness: width 10, spacing 3, three workers; the grid
column x = 6 is covered by exactly one chunk range. -/
theorem c2_chunk_partition_witness :
    (computeChunks 10 3 3).countP (fun c => decide (c.1 ≤ 6 ∧ 6 < c.2)) = 1 :=
  (c2_chunk_partition 10 3 3 (by decide) (by decide) (by decide)).2.2 6
    (by decide) (by decide)

/-! ## Worker data model (fast-worker.js)

Countries are identified by their index in world.features.  JavaScript
numbers appear as rationals; the JsNumber type is used where NaN and the
infinities are observable (projection inversion results). -/

/-- A JavaScript number as observed by coordinate-validity checks. -/
inductive JsNumber where
  | num (q : ℚ)
  | nan
  | posInf
  | negInf
deriving DecidableEq

/-- One classified dot as pushed by processChunk: screen position, the
name of the owning country (null for ocean), and the inverse-projected
coordinates. -/
structure Dot where
  x : ℚ
  y : ℚ
  countryName : Option String
  coords : Option (JsNumber × JsNumber)
deriving DecidableEq

/-! ## Boundary deduplication (WorkerPool.calculateDotsParallel)

After the parallel chunks return, two passes run: (a) for each pair of
adjacent chunks whose boundary x-coordinates are within one spacing,
drop from the later chunk all dots at the rounded boundary x; then (b)
flatten and keep only the first dot per rounded (x, y) key. -/

/-- The rounded dedup key of a dot. -/
def dotKey (d : Dot) : Int × Int := (jsRound d.x, jsRound d.y)

/-- Math.max over the x coordinates of a nonempty chunk (the code only
evaluates this on chunks it has checked to be nonempty). -/
def listMaxX : List Dot → ℚ
  | [] => 0
  | d :: t => (t.map (fun e => e.x)).foldl max d.x

/-- Math.min over the x coordinates of a nonempty chunk. -/
def listMinX : List Dot → ℚ
  | [] => 0
  | d :: t => (t.map (fun e => e.x)).foldl min d.x

/-- The adjacent-chunk loop body: walks the chunk list left to right; at
each step the current chunk is the (possibly already filtered) previous
output, mirroring that the JS loop reads results[i] after having
overwritten it in the previous iteration. -/
def dropBoundaryDups (spacing : ℚ) : List Dot → List (List Dot) → List (List Dot)
  | _, [] => []
  | cur, next :: rest =>
    let next2 :=
      if cur ≠ [] ∧ next ≠ [] then
        let currentMaxX := listMaxX cur
        let nextMinX := listMinX next
        if |currentMaxX - nextMinX| < spacing then
          next.filter (fun d => decide (jsRound d.x ≠ jsRound nextMinX))
        else next
      else next
    next2 :: dropBoundaryDups spacing next2 rest

/-- Pass (a): the adjacent-chunk boundary drop over the whole chunk
list. -/
def boundaryDedup (spacing : ℚ) : List (List Dot) → List (List Dot)
  | [] => []
  | c :: rest => c :: dropBoundaryDups spacing c rest

/-- Pass (b) worker: keep the first dot per rounded key, given the set
of keys already in the Map. -/
def dedupByKeyAux : List (Int × Int) → List Dot → List Dot
  | _, [] => []
  | seen, d :: t =>
    if dotKey d ∈ seen then dedupByKeyAux seen t
    else d :: dedupByKeyAux (dotKey d :: seen) t

/-- Pass (b): the final coordinate-map dedup (first occurrence per
rounded (x, y) key, in encounter order). -/
def dedupByKey (l : List Dot) : List Dot := dedupByKeyAux [] l

/-- Both dedup passes as run at the end of calculateDotsParallel:
pass (a) over the chunk list, flatten, then pass (b). -/
def dedupResults (spacing : ℚ) (results : List (List Dot)) : List Dot :=
  dedupByKey (boundaryDedup spacing results).flatten

theorem dedupByKeyAux_fixed (seen : List (Int × Int)) (l : List Dot)
    (h : ∀ d ∈ l, dotKey d ∉ seen) (hnd : (l.map dotKey).Nodup) :
    dedupByKeyAux seen l = l := by
  induction l generalizing seen with
  | nil => rfl
  | cons d t ih =>
    simp only [List.map_cons, List.nodup_cons] at hnd
    rw [dedupByKeyAux, if_neg (h d (by simp))]
    congr 1
    apply ih
    · intro e he
      simp only [List.mem_cons, not_or]
      refine ⟨?_, h e (by simp [he])⟩
      intro hk
      exact hnd.1 (hk ▸ List.mem_map_of_mem dotKey he)
    · exact hnd.2

theorem dedupByKeyAux_nodup (l : List Dot) (seen : List (Int × Int)) :
    ((dedupByKeyAux seen l).map dotKey).Nodup ∧
    ∀ k ∈ (dedupByKeyAux seen l).map dotKey, k ∉ seen := by
  induction l generalizing seen with
  | nil => exact ⟨by simp [dedupByKeyAux], by simp [dedupByKeyAux]⟩
  | cons d t ih =>
    by_cases hd : dotKey d ∈ seen
    · rw [dedupByKeyAux, if_pos hd]
      exact ih seen
    · rw [dedupByKeyAux, if_neg hd]
      obtain ⟨ih1, ih2⟩ := ih (dotKey d :: seen)
      refine ⟨?_, ?_⟩
      · simp only [List.map_cons, List.nodup_cons]
        refine ⟨?_, ih1⟩
        intro hmem
        exact (ih2 _ hmem) (by simp)
      · intro k hk
        simp only [List.map_cons, List.mem_cons] at hk
        rcases hk with rfl | hk
        · exact hd
        · intro hks
          exact (ih2 k hk) (by simp [hks])

theorem dedupByKey_idem (l : List Dot) : dedupByKey (dedupByKey l) = dedupByKey l := by
  unfold dedupByKey
  apply dedupByKeyAux_fixed
  · simp
  · exact (dedupByKeyAux_nodup l []).1

/-- Claim C9: running the two dedup passes again on an
already-deduplicated result set (the flat output of the passes, fed back
in as the single combined chunk) removes no points and returns it
unchanged.  Pass (a) is a no-op on a single chunk because the adjacent
pair loop has nothing to visit, and pass (b) is idempotent because its
output has pairwise distinct rounded keys. -/
theorem c9_dedup_idempotent (spacing : ℚ) (results : List (List Dot)) :
    dedupResults spacing [dedupResults spacing results] =
      dedupResults spacing results := by
  show dedupByKey (boundaryDedup spacing [dedupResults spacing results]).flatten = _
  rw [show boundaryDedup spacing [dedupResults spacing results]
      = [dedupResults spacing results] from rfl]
  rw [show ([dedupResults spacing results]).flatten
      = dedupResults spacing results by simp]
  show dedupByKey (dedupByKey (boundaryDedup spacing results).flatten) = _
  exact dedupByKey_idem _

/-! ## Bounding-circle derivation (fast-worker.js, calculateCircularBounds)

The d3 outputs for the examined geometry (geoBounds, geoCentroid) and
the d3 predicates (geoContains on this geometry, geoDistance) are
parameters; Math.PI is the parameter pi. -/

/-- A bounding circle record as produced by calculateCircularBounds:
center in degrees, radius in radians, and the strategy flags. -/
structure Bounds where
  center : ℚ × ℚ
  radius : ℚ
  isPolar : Bool
  crossesAntimeridian : Bool
  isSpecialRegion : Bool
  regionType : String
deriving DecidableEq

/-- The function returns either one circle object or the two-element
array [mainBounds, alaskaBounds]. -/
inductive CircularBoundsResult where
  | single (b : Bounds)
  | pair (main alaska : Bounds)
deriving DecidableEq

/-- fast-worker.js calculateCircularBounds.  geoBounds is
[[minLon, minLat], [maxLon, maxLat]] as returned by d3.geoBounds;
centroid is d3.geoCentroid; containsFn c is d3.geoContains(geometry, c);
distanceFn is d3.geoDistance. -/
def calculateCircularBounds (pi : ℚ) (geoBounds : (ℚ × ℚ) × (ℚ × ℚ))
    (centroid : ℚ × ℚ) (containsFn : ℚ × ℚ → Bool)
    (distanceFn : ℚ × ℚ → ℚ × ℚ → ℚ) : CircularBoundsResult :=
  let minLon := geoBounds.1.1
  let minLat := geoBounds.1.2
  let maxLon := geoBounds.2.1
  let maxLat := geoBounds.2.2
  let isPolar := |minLat| > 80 ∨ |maxLat| > 80
  let crossesAntimeridian := maxLon < minLon ∨ (maxLon - minLon) > 350
  if centroid.2 < -60 then
    .single ⟨(0, -90), pi / 2.5, true, true, true, "antarctica"⟩
  else if centroid.2 > 50 ∧ centroid.1 > 60 ∧ centroid.1 < 180 then
    .single ⟨(100, 65), pi / 2.5, true, true, true, "russia"⟩
  else if centroid.2 > 30 ∧ centroid.1 < -30 ∧ centroid.1 > -180 then
    .pair ⟨centroid, pi / 4, false, false, true, "usa-main"⟩
      ⟨(-170, 65), pi / 3.5, true, true, true, "usa-alaska"⟩
  else if isPolar ∧ (minLat + maxLat) / 2 > 60 then
    .single ⟨centroid, pi / 3, true, decide crossesAntimeridian, false, "polar"⟩
  else
    let sampleCount : Nat := if isPolar then 100 else 50
    let maxDistance :=
      (List.range (sampleCount + 1)).foldl (fun acc i =>
        let lat := minLat + (maxLat - minLat) * ((i : ℚ) / (sampleCount : ℚ))
        (List.range (sampleCount + 1)).foldl (fun acc2 j =>
          let lon :=
            if crossesAntimeridian then
              let span := jsMod (360 + maxLon - minLon) 360
              let l := minLon + span * ((j : ℚ) / (sampleCount : ℚ))
              if l > 180 then l - 360 else l
            else minLon + (maxLon - minLon) * ((j : ℚ) / (sampleCount : ℚ))
          if containsFn (lon, lat) then max acc2 (distanceFn centroid (lon, lat))
          else acc2) acc) 0
    .single ⟨centroid, maxDistance * (if crossesAntimeridian then 1.2 else 1.02),
      decide isPolar, decide crossesAntimeridian, false, "standard"⟩

/-- The regionType tags of a derivation result, in order. -/
def regionTypes : CircularBoundsResult → List String
  | .single b => [b.regionType]
  | .pair b1 b2 => [b1.regionType, b2.regionType]

/-- Claim C7: the claim reads the Russia condition as centroid lon in
the closed interval [60,180] (and USA as lon in [-180,-30]), but the
code tests strict inequalities.  At centroid (60, 55) — lat > 50 and
lon in [60,180] — the code takes the general sampling branch and tags
the result standard, not the fixed Russia circle. -/
theorem c7_boundary_counterexample :
    regionTypes (calculateCircularBounds (355/113) ((0, 40), (10, 55)) (60, 55)
        (fun _ => false) (fun _ _ => 0)) = ["standard"] ∧
    (55 : ℚ) > 50 ∧ (60 : ℚ) ≥ 60 ∧ (60 : ℚ) ≤ 180 := by
  refine ⟨?_, by norm_num, by norm_num, by norm_num⟩
  simp only [calculateCircularBounds]
  rw [if_neg (by norm_num), if_neg (by norm_num), if_neg (by norm_num),
    if_neg (by norm_num)]
  rfl

/-- Claim C7 (amended): with the lon intervals read as open, matching
the strict comparisons in the code: centroid lat < -60 yields the fixed
antarctica circle (south pole, radius pi/2.5 rad = 72 deg, polar and
antimeridian-crossing); lat > 50 with lon in (60,180) yields the fixed
russia circle at (100,65), radius 72 deg, polar and crossing; lat > 30
with lon in (-180,-30) yields exactly two circles, a non-polar
usa-main circle at the true centroid with radius pi/4 rad = 45 deg and
the fixed polar crossing usa-alaska circle at (-170,65) with radius
pi/3.5 rad = 360/7 deg (about 51.4 deg). -/
theorem c7_special_region_circles (pi : ℚ) (gb : (ℚ × ℚ) × (ℚ × ℚ))
    (centroid : ℚ × ℚ) (containsFn : ℚ × ℚ → Bool)
    (distanceFn : ℚ × ℚ → ℚ × ℚ → ℚ) (hpi : 0 < pi) :
    (centroid.2 < -60 →
      calculateCircularBounds pi gb centroid containsFn distanceFn =
        .single ⟨(0, -90), pi / 2.5, true, true, true, "antarctica"⟩ ∧
      pi / 2.5 * 180 / pi = 72) ∧
    (centroid.2 > 50 → 60 < centroid.1 → centroid.1 < 180 →
      calculateCircularBounds pi gb centroid containsFn distanceFn =
        .single ⟨(100, 65), pi / 2.5, true, true, true, "russia"⟩ ∧
      pi / 2.5 * 180 / pi = 72) ∧
    (centroid.2 > 30 → -180 < centroid.1 → centroid.1 < -30 →
      calculateCircularBounds pi gb centroid containsFn distanceFn =
        .pair ⟨centroid, pi / 4, false, false, true, "usa-main"⟩
          ⟨(-170, 65), pi / 3.5, true, true, true, "usa-alaska"⟩ ∧
      pi / 4 * 180 / pi = 45 ∧ pi / 3.5 * 180 / pi = 360 / 7) := by
  have hdeg25 : pi / 2.5 * 180 / pi = 72 := by
    field_simp
    ring
  refine ⟨fun h => ⟨?_, hdeg25⟩, fun h1 h2 h3 => ⟨?_, hdeg25⟩,
    fun h1 h2 h3 => ⟨?_, ?_, ?_⟩⟩
  · simp only [calculateCircularBounds]
    rw [if_pos h]
  · simp only [calculateCircularBounds]
    rw [if_neg (by intro hc; linarith), if_pos ⟨h1, h2, h3⟩]
  · simp only [calculateCircularBounds]
    rw [if_neg (by intro hc; linarith),
      if_neg (by rintro ⟨-, hc, -⟩; linarith), if_pos ⟨h1, h3, h2⟩]
  · field_simp
    ring
  · field_simp
    ring

/-- Claim C7 witness: a centroid at (0, -70) takes the antarctica
branch. -/
theorem c7_special_region_circles_witness :
    calculateCircularBounds (355/113) ((0, -80), (10, -65)) (0, -70)
        (fun _ => false) (fun _ _ => 0) =
      .single ⟨(0, -90), (355/113 : ℚ) / 2.5, true, true, true, "antarctica"⟩ ∧
    (355/113 : ℚ) / 2.5 * 180 / (355/113) = 72 :=
  (c7_special_region_circles (355/113) ((0, -80), (10, -65)) (0, -70)
      (fun _ => false) (fun _ _ => 0) (by norm_num)).1 (by norm_num)

/-! ## Spatial index (fast-worker.js, initializeSpatialGrid / getGridCell)

Cell keys are (gridLat, gridLon) integer pairs, standing for the JS
template string keys (the string form is injective on such pairs).  The
Map is modelled extensionally as a function from key to the entry list
in push order. -/

/-- The integer list enumerated by for (v = lo; v < hi; v += 10), for lo
and hi multiples of 10. -/
def range10 (lo hi : Int) : List Int :=
  (List.range ((hi - lo) / 10).toNat).map (fun i : Nat => lo + 10 * (i : Int))

/-- The cell keys (lat, wrappedLon) enumerated by initializeSpatialGrid
for one circle: the lat/lon box of the circle (center plus or minus the
radius converted to degrees), latitude clamped, cell-aligned with floor
and ceil, with the longitude of each key passed through the
((lon + 180) % 360) - 180 normalization. -/
def cellsOf (pi : ℚ) (b : Bounds) : List (Int × Int) :=
  let radiusDegrees := b.radius * 180 / pi
  let minLat : Int := max (-90) (⌊(b.center.2 - radiusDegrees) / 10⌋ * 10)
  let maxLat : Int := min 90 (⌈(b.center.2 + radiusDegrees) / 10⌉ * 10)
  let minLon : Int := ⌊(b.center.1 - radiusDegrees) / 10⌋ * 10
  let maxLon : Int := ⌈(b.center.1 + radiusDegrees) / 10⌉ * 10
  (range10 minLat maxLat).flatMap (fun lat =>
    (range10 minLon maxLon).map (fun lon => (lat, jsWrapKey lon)))

/-- fast-worker.js initializeSpatialGrid: fold over countryCircles,
pushing each entry onto the candidate list of every cell of its box. -/
def initializeSpatialGrid (pi : ℚ) (circles : List (Nat × Bounds)) :
    Int × Int → List (Nat × Bounds) :=
  circles.foldl (fun g cc =>
    (cellsOf pi cc.2).foldl (fun g2 k =>
      fun k2 => if k2 = k then g2 k2 ++ [cc] else g2 k2) g)
    (fun _ => [])

/-- fast-worker.js getGridCell: floor both coordinates to the 10-degree
grid and normalize the longitude key. -/
def getGridCell (c : ℚ × ℚ) : Int × Int :=
  (⌊c.2 / 10⌋ * 10, jsWrapKey (⌊c.1 / 10⌋ * 10))

theorem gridInsert_lookup (cc : Nat × Bounds) (ks : List (Int × Int))
    (g : Int × Int → List (Nat × Bounds)) (k : Int × Int) :
    (ks.foldl (fun g2 kk =>
        fun k2 => if k2 = kk then g2 k2 ++ [cc] else g2 k2) g) k
      = g k ++ List.replicate (ks.count k) cc := by
  induction ks generalizing g with
  | nil => simp
  | cons kk t ih =>
    rw [List.foldl_cons, ih]
    by_cases hk : k = kk
    · subst hk
      simp [List.count_cons, List.replicate_succ, List.append_assoc]
    · have : (kk == k) = false := by simpa using fun h => hk h.symm
      simp [hk, List.count_cons, this]

theorem initializeSpatialGrid_lookup (pi : ℚ) (circles : List (Nat × Bounds))
    (k : Int × Int) :
    initializeSpatialGrid pi circles k =
      circles.flatMap (fun cc => List.replicate ((cellsOf pi cc.2).count k) cc) := by
  unfold initializeSpatialGrid
  suffices h : ∀ g : Int × Int → List (Nat × Bounds),
      (circles.foldl (fun g cc =>
        (cellsOf pi cc.2).foldl (fun g2 kk =>
          fun k2 => if k2 = kk then g2 k2 ++ [cc] else g2 k2) g) g) k
      = g k ++ circles.flatMap (fun cc =>
          List.replicate ((cellsOf pi cc.2).count k) cc) by
    simpa using h (fun _ => [])
  induction circles with
  | nil => intro g; simp
  | cons cc t ih =>
    intro g
    rw [List.foldl_cons, ih, gridInsert_lookup, List.flatMap_cons,
      List.append_assoc]

theorem mem_initializeSpatialGrid (pi : ℚ) (circles : List (Nat × Bounds))
    (cc : Nat × Bounds) (k : Int × Int) (h1 : cc ∈ circles)
    (h2 : k ∈ cellsOf pi cc.2) :
    cc ∈ initializeSpatialGrid pi circles k := by
  rw [initializeSpatialGrid_lookup]
  refine List.mem_flatMap.mpr ⟨cc, h1, ?_⟩
  rw [List.mem_replicate]
  exact ⟨fun h0 => (List.count_eq_zero.mp h0) h2, rfl⟩

theorem mem_range10 (lo hi x : Int) (hlo : 10 ∣ lo) (hhi : 10 ∣ hi)
    (hx : 10 ∣ x) : x ∈ range10 lo hi ↔ lo ≤ x ∧ x < hi := by
  obtain ⟨a, rfl⟩ := hlo
  obtain ⟨b, rfl⟩ := hhi
  obtain ⟨c, rfl⟩ := hx
  unfold range10
  rw [show (10 * b - 10 * a) = 10 * (b - a) by ring,
    Int.mul_ediv_cancel_left _ (by norm_num)]
  constructor
  · intro hm
    obtain ⟨i, hi, he⟩ := List.mem_map.mp hm
    rw [List.mem_range] at hi
    have he2 : 10 * a + 10 * (i : Int) = 10 * c := he
    omega
  · rintro ⟨h1, h2⟩
    apply List.mem_map.mpr
    refine ⟨(c - a).toNat, ?_, ?_⟩
    · rw [List.mem_range]
      omega
    · show 10 * a + 10 * (((c - a).toNat : Nat) : Int) = 10 * c
      omega

theorem floorTimes_le_iff (q : ℚ) (k : Int) :
    ⌊q / 10⌋ * 10 ≤ 10 * k ↔ q < 10 * (k : ℚ) + 10 := by
  rw [show (10 : Int) * k = k * 10 by ring,
    mul_le_mul_right (show (0 : Int) < 10 by norm_num),
    Int.floor_le_iff]
  rw [div_lt_iff (show (0 : ℚ) < 10 by norm_num)]
  constructor <;> intro h <;> [push_cast at h; push_cast] <;> linarith

theorem lt_ceilTimes_iff (q : ℚ) (k : Int) :
    10 * k < ⌈q / 10⌉ * 10 ↔ (10 * (k : ℚ)) < q := by
  rw [show (10 : Int) * k = k * 10 by ring,
    mul_lt_mul_right (show (0 : Int) < 10 by norm_num),
    Int.lt_ceil]
  rw [lt_div_iff (show (0 : ℚ) < 10 by norm_num)]
  constructor <;> intro h <;> [push_cast at h; push_cast] <;> linarith

theorem dvd_max10 (x y : Int) (hx : 10 ∣ x) (hy : 10 ∣ y) : 10 ∣ max x y := by
  rcases max_choice x y with h | h <;> rw [h] <;> assumption

theorem dvd_min10 (x y : Int) (hx : 10 ∣ x) (hy : 10 ∣ y) : 10 ∣ min x y := by
  rcases min_choice x y with h | h <;> rw [h] <;> assumption

/-- Claim C4: the claim asserts that every cell key enumerated during
the build has its longitude wrapped into [-180,180).  This is refuted:
the JS remainder keeps the sign of its dividend, so for enumerated box
longitudes below -180 the expression ((lon + 180) % 360) - 180 returns
lon unchanged.  A circle centered at lon -175 with a 10-degree radius
enumerates the cell longitude -190, which is stored under the key
longitude -190, outside [-180,180). -/
theorem c4_unwrapped_key_counterexample :
    ((0 : Nat), (⟨(-175, 5), (355/113 : ℚ)/18, false, false, false,
        "standard"⟩ : Bounds)) ∈
      initializeSpatialGrid (355/113)
        [(0, ⟨(-175, 5), (355/113 : ℚ)/18, false, false, false, "standard"⟩)]
        (-10, -190) ∧
    ((-190 : Int) < -180) := by
  refine ⟨?_, by decide⟩
  apply mem_initializeSpatialGrid _ _ _ _ (by simp)
  have hrd : (355/113 : ℚ)/18 * 180 / (355/113) = 10 := by norm_num
  simp only [cellsOf, hrd]
  norm_num
  rw [show (⌈(3:ℚ)/2⌉ : Int) = 2 from by rw [Int.ceil_eq_iff] <;> norm_num,
    show (⌈-((33:ℚ)/2)⌉ : Int) = -16 from by rw [Int.ceil_eq_iff] <;> norm_num]
  decide

/-- Claim C4 (amended): after the spatial index is built, every circle
entry appears in the candidate list of every 10x10 cell whose open
square (a, a+10) x (b, b+10) meets the open latitude-clamped box of the
circle, (max(-90, lat-r), min(90, lat+r)) x (lon-r, lon+r) with r the
radius in degrees — equivalently, the inequalities below; the cell is
stored under the key (a, jsWrapKey b).  Enumerated longitudes of at
least -180 are wrapped into [-180, 180); enumerated longitudes below
-180 (boxes reaching past the antimeridian on the west) are stored
unwrapped, matching the identically unwrapped query-side keys of
getGridCell. -/
theorem c4_spatial_grid_registration (pi : ℚ) (circles : List (Nat × Bounds))
    (cc : Nat × Bounds) (a b : Int) (hcc : cc ∈ circles)
    (ha : 10 ∣ a) (hb : 10 ∣ b)
    (hlat1 : -90 ≤ a) (hlat2 : a < 90)
    (hlat3 : cc.2.center.2 - cc.2.radius * 180 / pi < (a : ℚ) + 10)
    (hlat4 : (a : ℚ) < cc.2.center.2 + cc.2.radius * 180 / pi)
    (hlon1 : cc.2.center.1 - cc.2.radius * 180 / pi < (b : ℚ) + 10)
    (hlon2 : (b : ℚ) < cc.2.center.1 + cc.2.radius * 180 / pi) :
    cc ∈ initializeSpatialGrid pi circles (a, jsWrapKey b) ∧
    (∀ g : Int, -180 ≤ g → -180 ≤ jsWrapKey g ∧ jsWrapKey g < 180) := by
  constructor
  · apply mem_initializeSpatialGrid _ _ _ _ hcc
    obtain ⟨ka, hka⟩ := ha
    obtain ⟨kb, hkb⟩ := hb
    simp only [cellsOf]
    apply List.mem_flatMap.mpr
    refine ⟨a, ?_, ?_⟩
    · rw [mem_range10 _ _ _
        (dvd_max10 _ _ (by norm_num) (dvd_mul_left 10 _))
        (dvd_min10 _ _ (by norm_num) (dvd_mul_left 10 _)) ⟨ka, hka⟩]
      rw [hka] at hlat2 hlat3 hlat4 ⊢
      push_cast at hlat3 hlat4
      refine ⟨max_le (by omega) ?_, lt_min (by omega) ?_⟩
      · apply (floorTimes_le_iff _ _).mpr
        linarith
      · apply (lt_ceilTimes_iff _ _).mpr
        linarith
    · apply List.mem_map.mpr
      refine ⟨b, ?_, rfl⟩
      rw [mem_range10 _ _ _ (dvd_mul_left 10 _) (dvd_mul_left 10 _) ⟨kb, hkb⟩]
      rw [hkb] at hlon1 hlon2 ⊢
      push_cast at hlon1 hlon2
      refine ⟨?_, ?_⟩
      · apply (floorTimes_le_iff _ _).mpr
        linarith
      · apply (lt_ceilTimes_iff _ _).mpr
        linarith
  · intro g hg
    have h1 : 0 ≤ Int.tmod (g + 180) 360 := Int.tmod_nonneg 360 (by omega)
    have h2 : Int.tmod (g + 180) 360 < 360 := Int.tmod_lt_of_pos _ (by norm_num)
    unfold jsWrapKey jsModInt
    omega

/-- Claim C4 witness: the same small circle is registered in the cell
(0, -180), whose open square meets its open box. -/
theorem c4_spatial_grid_registration_witness :
    ((0 : Nat), (⟨(-175, 5), (355/113 : ℚ)/18, false, false, false,
        "standard"⟩ : Bounds)) ∈
      initializeSpatialGrid (355/113)
        [(0, ⟨(-175, 5), (355/113 : ℚ)/18, false, false, false, "standard"⟩)]
        (0, jsWrapKey (-180)) :=
  (c4_spatial_grid_registration (355/113) _ _ 0 (-180) (by simp)
    (by decide) (by decide) (by decide) (by decide)
    (by norm_num) (by norm_num) (by norm_num) (by norm_num)).1

/-! ## Lookup map and dot generation (fast-worker.js)

processChunk and calculateDots classify grid points either through the
precomputed lookup map or through the tiered slow path; the slow path,
the projection-outline test and the inversion are passed as functions.
-/

/-- The precomputed countryLookupMap: a row-major array of country
indices (0 = ocean, i+1 = features[i]) with its dimensions, as built by
buildCountryLookupMap (width and height are Math.ceil results). -/
structure LookupMap where
  data : List Nat
  width : Int
  height : Int
  resolution : ℚ
deriving DecidableEq

/-- fast-worker.js getCountryAtPointFast: with no map fall back to the
slow path; otherwise quantize the point by the map resolution, return
null outside the map, else decode the stored country index. -/
def getCountryAtPointFast (features : List Nat) (lookupMap : Option LookupMap)
    (slow : ℚ × ℚ → Option Nat) (point : ℚ × ℚ) : Option Nat :=
  match lookupMap with
  | none => slow point
  | some m =>
    let x : Int := ⌊point.1 / m.resolution⌋
    let y : Int := ⌊point.2 / m.resolution⌋
    if x < 0 ∨ m.width ≤ x ∨ y < 0 ∨ m.height ≤ y then none
    else
      let index := m.data.getD (y * m.width + x).toNat 0
      if 0 < index then features.get? (index - 1) else none

/-- The list visited by for (v = start; v < stop; v += step), for a
positive step (the only case the program exercises; a nonpositive step
would not terminate in JS). -/
def qRange (start stop step : ℚ) : List ℚ :=
  (List.range (⌈(stop - start) / step⌉.toNat)).map
    (fun i : Nat => start + step * (i : ℚ))

/-- The payload of a processChunk message. -/
structure ChunkParams where
  width : ℚ
  height : ℚ
  spacing : ℚ
  showOceanDots : Bool
  startX : ℚ
  endX : ℚ
  startY : ℚ
  endY : ℚ

/-- fast-worker.js processChunk: scan the chunk columns; for each grid
point inside the projection outline, classify through the lookup map
whenever one exists (falling back to the slow path only when no map has
been built), skip ocean points unless requested, and record the dot. -/
def processChunk (features : List Nat) (names : Nat → String)
    (lookupMap : Option LookupMap) (slow : ℚ × ℚ → Option Nat)
    (isInProj : ℚ × ℚ → Bool) (invert : ℚ × ℚ → Option (JsNumber × JsNumber))
    (p : ChunkParams) : List Dot :=
  (qRange p.startX p.endX p.spacing).flatMap (fun x =>
    (qRange p.startY p.endY p.spacing).filterMap (fun y =>
      if isInProj (x, y) then
        let country :=
          match lookupMap with
          | some _ => getCountryAtPointFast features lookupMap slow (x, y)
          | none => slow (x, y)
        if country = none ∧ p.showOceanDots = false then none
        else some ⟨x, y, country.map names, invert (x, y)⟩
      else none))

/-- fast-worker.js createDotsGrid: all grid points of the full canvas. -/
def createDotsGrid (spacing width height : ℚ) : List (ℚ × ℚ) :=
  (qRange 0 width spacing).flatMap (fun x =>
    (qRange 0 height spacing).map (fun y => (x, y)))

/-- fast-worker.js calculateDots: unlike processChunk, the fast path is
taken only when the lookup map dimensions match ceil(width/resolution)
and ceil(height/resolution) for the queried size. -/
def calculateDots (features : List Nat) (names : Nat → String)
    (lookupMap : Option LookupMap) (slow : ℚ × ℚ → Option Nat)
    (isInProj : ℚ × ℚ → Bool) (invert : ℚ × ℚ → Option (JsNumber × JsNumber))
    (width height spacing : ℚ) (showOceanDots : Bool) : List Dot :=
  let dots := (createDotsGrid spacing width height).filter isInProj
  let useFast :=
    match lookupMap with
    | some m => decide (m.width = ⌈width / m.resolution⌉) &&
        decide (m.height = ⌈height / m.resolution⌉)
    | none => false
  dots.filterMap (fun point =>
    let country :=
      if useFast then getCountryAtPointFast features lookupMap slow point
      else slow point
    if country = none ∧ showOceanDots = false then none
    else some ⟨point.1, point.2, country.map names, invert point⟩)

/-- Claim C3: the claim says a built lookup map is consulted only when
the query dimensions and resolution match it, with a fallback to the
per-point pipeline otherwise.  calculateDots indeed guards the fast
path that way, but processChunk — the path every parallel chunk query
takes — uses the map whenever one is non-null, with no dimension check.
Concretely: a 1x1 map at resolution 1 is read by a width-3 query
(ceil(3/1) = 3 differs from 1), and its stale entry changes the result
relative to the slow pipeline, which returns no dot. -/
theorem c3_stale_map_counterexample :
    processChunk [7] (fun _ => "X") (some ⟨[1], 1, 1, 1⟩) (fun _ => none)
        (fun _ => true) (fun _ => none) ⟨3, 1, 1, false, 0, 1, 0, 1⟩ =
      [⟨0, 0, some "X", none⟩] ∧
    ((1 : Int) ≠ ⌈(3 : ℚ) / 1⌉) ∧
    processChunk [7] (fun _ => "X") none (fun _ => none)
        (fun _ => true) (fun _ => none) ⟨3, 1, 1, false, 0, 1, 0, 1⟩ = [] := by
  have hq : qRange 0 1 1 = [0] := by
    unfold qRange
    norm_num
    rw [show List.range 1 = [0] from rfl]
    simp
  refine ⟨?_, by norm_num, ?_⟩
  · unfold processChunk
    rw [hq]
    simp only [List.flatMap_cons, List.flatMap_nil, List.filterMap_cons,
      List.filterMap_nil]
    norm_num [getCountryAtPointFast]
    simp
  · unfold processChunk
    rw [hq]
    simp

/-- Claim C3 (amended): the dimension/resolution guard exists only in
calculateDots: there, for any query whose dimensions or resolution do
not match the built map, classification is identical to running with no
map at all (every point goes through the tiered slow pipeline).  In
processChunk a non-null map is always consulted, regardless of the
match (shown concretely by the counterexample). -/
theorem c3_lookup_map_guard (features : List Nat) (names : Nat → String)
    (m : LookupMap) (slow : ℚ × ℚ → Option Nat) (isInProj : ℚ × ℚ → Bool)
    (invert : ℚ × ℚ → Option (JsNumber × JsNumber)) (width height spacing : ℚ)
    (showOceanDots : Bool)
    (hmis : m.width ≠ ⌈width / m.resolution⌉ ∨
      m.height ≠ ⌈height / m.resolution⌉) :
    calculateDots features names (some m) slow isInProj invert
        width height spacing showOceanDots =
      calculateDots features names none slow isInProj invert
        width height spacing showOceanDots := by
  simp only [calculateDots]
  have hfast : (decide (m.width = ⌈width / m.resolution⌉) &&
      decide (m.height = ⌈height / m.resolution⌉)) = false := by
    rcases hmis with h | h <;> simp [h]
  simp only [hfast, Bool.false_eq_true, if_false]

/-- Claim C3 witness: with the mismatched 1x1 map of the
counterexample, calculateDots over a width-3 canvas coincides with the
no-map run. -/
theorem c3_lookup_map_guard_witness :
    calculateDots [7] (fun _ => "X") (some ⟨[1], 1, 1, 1⟩) (fun _ => none)
        (fun _ => true) (fun _ => none) 3 1 1 false =
      calculateDots [7] (fun _ => "X") none (fun _ => none)
        (fun _ => true) (fun _ => none) 3 1 1 false :=
  c3_lookup_map_guard [7] (fun _ => "X") ⟨[1], 1, 1, 1⟩ (fun _ => none)
    (fun _ => true) (fun _ => none) 3 1 1 false (Or.inl (by norm_num))

/-! ## Tiered point classification (fast-worker.js, getCountryAtPointSlow)

The worker state is a GeoWorld: the preprocessed circle entries in build
order plus the d3 collaborators.  geoContains may raise (degenerate
geometry), modelled by Except Unit; the try/catch of the function maps
any raised exception to null. -/

/-- The d3 collaborators and preprocessed geometry a worker holds. -/
structure GeoWorld where
  circles : List (Nat × Bounds)
  geoContains : Nat → ℚ × ℚ → Except Unit Bool
  geoDistance : ℚ × ℚ → ℚ × ℚ → ℚ
  pi : ℚ

/-- isNaN on a JsNumber. -/
def JsNumber.isNaNb : JsNumber → Bool
  | .nan => true
  | _ => false

/-- isFinite on a JsNumber. -/
def JsNumber.isFiniteb : JsNumber → Bool
  | .num _ => true
  | _ => false

/-- The comparison Math.abs(v) <= bound under JS semantics: false for
NaN and for both infinities. -/
def JsNumber.absLe (v : JsNumber) (bound : ℚ) : Bool :=
  match v with
  | .num q => decide (|q| ≤ bound)
  | _ => false

/-- The rational value of a finite JsNumber (read only after the
validity check has passed). -/
def JsNumber.toRat : JsNumber → ℚ
  | .num q => q
  | _ => 0

/-- fast-worker.js isValidCoordinate. -/
def isValidCoordinate (c : JsNumber × JsNumber) : Bool :=
  !c.1.isNaNb && !c.2.isNaNb && c.2.absLe 90 && c.1.isFiniteb

/-- The testLons of the Alaska fast path: lon, plus lon + 360 when
lon < -170. -/
def alaskaTestLons (lon : ℚ) : List ℚ :=
  [lon] ++ (if lon < -170 then [lon + 360] else [])

/-- The wrapped longitude candidates used by the special-region loop and
the general path: lon, plus lon - 360 when lon > 150, plus lon + 360
when lon < -150. -/
def wrappedLons (lon : ℚ) : List ℚ :=
  [lon] ++ (if lon > 150 then [lon - 360] else []) ++
    (if lon < -150 then [lon + 360] else [])

/-- for (testLon of testLons) if (geoContains(...)) return: true at the
first containing candidate, propagating a raised exception. -/
def containsAny (w : GeoWorld) (country : Nat) (lat : ℚ) :
    List ℚ → Except Unit Bool
  | [] => .ok false
  | l :: t =>
    match w.geoContains country (l, lat) with
    | .error e => .error e
    | .ok true => .ok true
    | .ok false => containsAny w country lat t

/-- A flag-filtered exact-containment loop over the circle entries: the
Alaska path uses the usa-alaska regionType filter, the special-region
path the isSpecialRegion filter. -/
def loopFilteredContains (w : GeoWorld) (keep : Bounds → Bool) (lons : List ℚ)
    (lat : ℚ) : List (Nat × Bounds) → Except Unit (Option Nat)
  | [] => .ok none
  | cb :: t =>
    if keep cb.2 then
      match containsAny w cb.1 lat lons with
      | .error e => .error e
      | .ok true => .ok (some cb.1)
      | .ok false => loopFilteredContains w keep lons lat t
    else loopFilteredContains w keep lons lat t

/-- The candidate loop of the general path: polar or
antimeridian-crossing circles go straight to exact containment, every
other circle is prefiltered by geodesic distance to its center. -/
def candidateLoop (w : GeoWorld) (lons : List ℚ) (lat : ℚ) :
    List (Nat × Bounds) → Except Unit (Option Nat)
  | [] => .ok none
  | cb :: t =>
    if cb.2.isPolar || cb.2.crossesAntimeridian then
      match containsAny w cb.1 lat lons with
      | .error e => .error e
      | .ok true => .ok (some cb.1)
      | .ok false => candidateLoop w lons lat t
    else if lons.any (fun tl =>
        decide (w.geoDistance cb.2.center (tl, lat) ≤ cb.2.radius)) then
      match containsAny w cb.1 lat lons with
      | .error e => .error e
      | .ok true => .ok (some cb.1)
      | .ok false => candidateLoop w lons lat t
    else candidateLoop w lons lat t

/-- Insertion-order dedup with an explicit seen set (the iteration order
of new Set(list)). -/
def dedupFirstAux {α : Type} [DecidableEq α] : List α → List α → List α
  | _, [] => []
  | seen, a :: t =>
    if a ∈ seen then dedupFirstAux seen t
    else a :: dedupFirstAux (a :: seen) t

/-- The candidate set: new Set(lons.flatMap(...)), iterated in insertion
order. -/
def dedupFirst {α : Type} [DecidableEq α] (l : List α) : List α :=
  dedupFirstAux [] l

/-- The classification tiers of getCountryAtPointSlow, applied to an
already wrapped longitude: Alaska fast path, special-region fast path,
then grid candidates with the circle-distance prefilter. -/
def classifyCore (w : GeoWorld) (grid : Int × Int → List (Nat × Bounds))
    (lon lat : ℚ) : Except Unit (Option Nat) :=
  let alaska :=
    if lat > 50 ∧ lon < -150 then
      loopFilteredContains w (fun b => b.regionType == "usa-alaska")
        (alaskaTestLons lon) lat w.circles
    else .ok none
  match alaska with
  | .error e => .error e
  | .ok (some f) => .ok (some f)
  | .ok none =>
    let special :=
      if |lat| > 60 ∨ (lon > 150 ∨ lon < -150) then
        loopFilteredContains w (fun b => b.isSpecialRegion)
          (wrappedLons lon) lat w.circles
      else .ok none
    match special with
    | .error e => .error e
    | .ok (some f) => .ok (some f)
    | .ok none =>
      let lons := wrappedLons lon
      let candidates :=
        dedupFirst (lons.flatMap (fun tl => grid (getGridCell (tl, lat))))
      candidateLoop w lons lat candidates

/-- The try-block body of getCountryAtPointSlow: invert the point,
reject null or invalid coordinates, wrap the longitude, classify. -/
def getCountryAtPointSlowE (w : GeoWorld)
    (grid : Int × Int → List (Nat × Bounds))
    (invert : ℚ × ℚ → Except Unit (Option (JsNumber × JsNumber)))
    (point : ℚ × ℚ) : Except Unit (Option Nat) :=
  match invert point with
  | .error e => .error e
  | .ok none => .ok none
  | .ok (some c) =>
    if isValidCoordinate c then
      classifyCore w grid (wrapLongitude c.1.toRat) c.2.toRat
    else .ok none

/-- fast-worker.js getCountryAtPointSlow: the catch clause maps any
exception raised during inversion or containment testing to null. -/
def getCountryAtPointSlow (w : GeoWorld)
    (grid : Int × Int → List (Nat × Bounds))
    (invert : ℚ × ℚ → Except Unit (Option (JsNumber × JsNumber)))
    (point : ℚ × ℚ) : Option Nat :=
  match getCountryAtPointSlowE w grid invert point with
  | .error _ => none
  | .ok v => v

/-- Modelled from the spec (section 8, tiered-pipeline equivalence): the
brute-force comparator tests every country in order with the exact
containment predicate and returns the first container, null when none
contains the point.  Countries are enumerated through the circle entry
list, which lists them in features order (a country owning two circles
is merely tested twice). -/
def bruteForceClassify (circles : List (Nat × Bounds))
    (containsB : Nat → ℚ × ℚ → Bool) (c : ℚ × ℚ) : Option Nat :=
  (circles.find? (fun cb => containsB cb.1 c)).map (fun cb => cb.1)

/-- A world whose geoContains is a pure predicate (raises nothing). -/
def pureWorld (circles : List (Nat × Bounds))
    (containsB : Nat → ℚ × ℚ → Bool) (dist : ℚ × ℚ → ℚ × ℚ → ℚ)
    (pi : ℚ) : GeoWorld :=
  ⟨circles, fun f c => .ok (containsB f c), dist, pi⟩

/-- The predicate under which the candidate loop accepts an entry, for a
pure containment function. -/
def candidatePasses (containsB : Nat → ℚ × ℚ → Bool)
    (dist : ℚ × ℚ → ℚ × ℚ → ℚ) (lons : List ℚ) (lat : ℚ)
    (cb : Nat × Bounds) : Bool :=
  if cb.2.isPolar || cb.2.crossesAntimeridian then
    lons.any (fun tl => containsB cb.1 (tl, lat))
  else
    (lons.any (fun tl => decide (dist cb.2.center (tl, lat) ≤ cb.2.radius))) &&
    (lons.any (fun tl => containsB cb.1 (tl, lat)))

/-! ### Pure-containment lemmas for the pipeline -/

theorem containsAny_pure (circles : List (Nat × Bounds))
    (containsB : Nat → ℚ × ℚ → Bool) (dist : ℚ × ℚ → ℚ × ℚ → ℚ) (pi : ℚ)
    (f : Nat) (lat : ℚ) (ls : List ℚ) :
    containsAny (pureWorld circles containsB dist pi) f lat ls =
      .ok (ls.any (fun l => containsB f (l, lat))) := by
  induction ls with
  | nil => rfl
  | cons l t ih =>
    simp only [containsAny, pureWorld]
    cases hc : containsB f (l, lat)
    · simpa [hc] using ih
    · simp [hc]

theorem loopFilteredContains_pure_none (circles₀ l : List (Nat × Bounds))
    (containsB : Nat → ℚ × ℚ → Bool) (dist : ℚ × ℚ → ℚ × ℚ → ℚ) (pi : ℚ)
    (keep : Bounds → Bool) (lons : List ℚ) (lat : ℚ)
    (h : ∀ cb ∈ l, keep cb.2 = true →
      (lons.any (fun tl => containsB cb.1 (tl, lat))) = false) :
    loopFilteredContains (pureWorld circles₀ containsB dist pi) keep lons lat l
      = .ok none := by
  induction l with
  | nil => rfl
  | cons cb t ih =>
    simp only [loopFilteredContains]
    by_cases hk : keep cb.2 = true
    · rw [if_pos hk, containsAny_pure, h cb (by simp) hk]
      exact ih (fun cb2 h2 => h cb2 (by simp [h2]))
    · rw [if_neg hk]
      exact ih (fun cb2 h2 => h cb2 (by simp [h2]))

theorem candidateLoop_pure (circles₀ : List (Nat × Bounds))
    (containsB : Nat → ℚ × ℚ → Bool) (dist : ℚ × ℚ → ℚ × ℚ → ℚ) (pi : ℚ)
    (lons : List ℚ) (lat : ℚ) (l : List (Nat × Bounds)) :
    candidateLoop (pureWorld circles₀ containsB dist pi) lons lat l =
      .ok ((l.find? (candidatePasses containsB dist lons lat)).map
        (fun cb => cb.1)) := by
  induction l with
  | nil => rfl
  | cons cb t ih =>
    simp only [candidateLoop]
    by_cases hp : (cb.2.isPolar || cb.2.crossesAntimeridian) = true
    · rw [if_pos hp, containsAny_pure]
      cases hc : lons.any (fun tl => containsB cb.1 (tl, lat))
      · rw [ih, List.find?_cons_of_neg _ (by simp [candidatePasses, hp, hc])]
      · rw [List.find?_cons_of_pos _ (by simp [candidatePasses, hp, hc])]
        rfl
    · rw [if_neg hp,
        show (pureWorld circles₀ containsB dist pi).geoDistance = dist from rfl]
      by_cases hw : (lons.any (fun tl =>
          decide (dist cb.2.center (tl, lat) ≤ cb.2.radius))) = true
      · rw [if_pos hw, containsAny_pure]
        cases hc : lons.any (fun tl => containsB cb.1 (tl, lat))
        · rw [ih, List.find?_cons_of_neg _
            (by simp [candidatePasses, hp, hw, hc])]
        · rw [List.find?_cons_of_pos _
            (by simp [candidatePasses, hp, hw, hc])]
          rfl
      · rw [if_neg hw, ih, List.find?_cons_of_neg _
          (by simp [candidatePasses, hp, hw])]

theorem find?_filter_seen_cons {α : Type} [DecidableEq α] (p : α → Bool)
    (a : α) (ha : p a = false) (seen : List α) (t : List α) :
    (t.filter (fun x => decide (x ∉ a :: seen))).find? p =
      (t.filter (fun x => decide (x ∉ seen))).find? p := by
  induction t with
  | nil => rfl
  | cons b t ih =>
    by_cases hb : b = a
    · subst hb
      rw [List.filter_cons_of_neg (by simp)]
      by_cases hbs : b ∈ seen
      · rw [List.filter_cons_of_neg (by simp [hbs])]
        exact ih
      · rw [List.filter_cons_of_pos (by simp [hbs]),
          List.find?_cons_of_neg _ (by simp [ha])]
        exact ih
    · by_cases hbs : b ∈ seen
      · rw [List.filter_cons_of_neg (by simp [hbs]),
          List.filter_cons_of_neg (by simp [hbs])]
        exact ih
      · rw [List.filter_cons_of_pos (by simp [hb, hbs]),
          List.filter_cons_of_pos (by simp [hbs])]
        cases hpb : p b
        · rw [List.find?_cons_of_neg _ (by simp [hpb]), List.find?_cons_of_neg _ (by simp [hpb])]
          exact ih
        · rw [List.find?_cons_of_pos _ hpb, List.find?_cons_of_pos _ hpb]

theorem find?_dedupFirstAux {α : Type} [DecidableEq α] (p : α → Bool)
    (l : List α) : ∀ seen, (dedupFirstAux seen l).find? p =
      (l.filter (fun x => decide (x ∉ seen))).find? p := by
  induction l with
  | nil => intro seen; rfl
  | cons a t ih =>
    intro seen
    by_cases ha : a ∈ seen
    · simp only [dedupFirstAux]
      rw [if_pos ha, List.filter_cons_of_neg (by simp [ha])]
      exact ih seen
    · simp only [dedupFirstAux]
      rw [if_neg ha, List.filter_cons_of_pos (by simp [ha])]
      cases hpa : p a
      · rw [List.find?_cons_of_neg _ (by simp [hpa]), List.find?_cons_of_neg _ (by simp [hpa]),
          ih (a :: seen)]
        exact find?_filter_seen_cons p a hpa seen t
      · rw [List.find?_cons_of_pos _ hpa, List.find?_cons_of_pos _ hpa]

theorem find?_dedupFirst {α : Type} [DecidableEq α] (p : α → Bool)
    (l : List α) : (dedupFirst l).find? p = l.find? p := by
  unfold dedupFirst
  rw [find?_dedupFirstAux]
  congr 1
  apply List.filter_eq_self.mpr
  intro x _
  simp

theorem find?_replicate_append {α : Type} (p : α → Bool) (a : α)
    (hpa : p a = false) (m : Nat) (rest : List α) :
    (List.replicate m a ++ rest).find? p = rest.find? p := by
  induction m with
  | zero => rfl
  | succ n ih =>
    rw [List.replicate_succ, List.cons_append, List.find?_cons_of_neg _ (by simp [hpa])]
    exact ih

theorem find?_flatMap_replicate {α : Type} (p : α → Bool) (n : α → Nat)
    (l : List α) :
    (l.flatMap (fun a => List.replicate (n a) a)).find? p =
      (l.filter (fun a => decide (n a ≠ 0))).find? p := by
  induction l with
  | nil => rfl
  | cons a t ih =>
    rw [List.flatMap_cons]
    cases hn : n a with
    | zero =>
      rw [List.filter_cons_of_neg (by simp [hn])]
      simpa [hn] using ih
    | succ m =>
      rw [List.filter_cons_of_pos (by simp [hn]), List.replicate_succ,
        List.cons_append]
      cases hpa : p a
      · rw [List.find?_cons_of_neg _ (by simp [hpa]), List.find?_cons_of_neg _ (by simp [hpa]),
          find?_replicate_append p a hpa]
        exact ih
      · rw [List.find?_cons_of_pos _ hpa, List.find?_cons_of_pos _ hpa]

theorem find?_filter_transfer {α : Type} (p q r : α → Bool) (l : List α)
    (h1 : ∀ x ∈ l, q x = true → p x = true)
    (h2 : ∀ x ∈ l, p x = true → r x = true ∧ q x = true) :
    (l.filter r).find? q = l.find? p := by
  induction l with
  | nil => rfl
  | cons a t ih =>
    have iht := ih (fun x hx => h1 x (by simp [hx]))
      (fun x hx => h2 x (by simp [hx]))
    cases hpa : p a
    · have hqa : q a = false := by
        cases hq : q a
        · rfl
        · exact absurd (h1 a (by simp) hq) (by simp [hpa])
      by_cases hra : r a = true
      · rw [List.filter_cons_of_pos hra, List.find?_cons_of_neg _ (by simp [hqa]),
          List.find?_cons_of_neg _ (by simp [hpa])]
        exact iht
      · rw [List.filter_cons_of_neg hra, List.find?_cons_of_neg _ (by simp [hpa])]
        exact iht
    · obtain ⟨hra, hqa⟩ := h2 a (by simp) hpa
      rw [List.filter_cons_of_pos hra, List.find?_cons_of_pos _ hqa,
        List.find?_cons_of_pos _ hpa]

theorem wrapLongitude_eq_self (lon : ℚ) (h1 : -180 < lon) (h2 : lon ≤ 150) :
    wrapLongitude lon = lon := by
  have hq0 : (0 : ℚ) ≤ (lon + 180) / 360 := by
    apply div_nonneg <;> linarith
  have hf : ⌊(lon + 180) / 360⌋ = 0 := by
    rw [Int.floor_eq_zero_iff]
    constructor
    · exact hq0
    · rw [div_lt_one (by norm_num)]
      linarith
  have hmod : jsMod (lon + 180) 360 = lon + 180 := by
    unfold jsMod jsTrunc
    rw [if_pos hq0, hf]
    push_cast
    ring
  unfold wrapLongitude
  rw [hmod, show lon + 180 - 180 = lon from by ring]
  show (if (if lon ≤ -180 then lon + 360 else lon) > 180 then
      (if lon ≤ -180 then lon + 360 else lon) - 360
    else (if lon ≤ -180 then lon + 360 else lon)) = lon
  rw [if_neg (by linarith : ¬ lon ≤ -180)]
  rw [if_neg (by linarith : ¬ lon > 180)]

/-- Claim C1: for a point whose inverse-projected coordinate is valid,
more than 30 degrees away from the antimeridian (wrapped longitude in
[-150, 150]) and not in a special region (no circle flagged
isSpecialRegion has a country containing it), the tiered pipeline
returns exactly what the brute-force exact-containment scan over every
country returns.  The hypothesis hsound is the over-inclusion property
the spec asserts of the derived circles: a containing country has its
point inside the registered cell box and past the distance prefilter. -/
theorem c1_tiered_pipeline_equiv
    (circles : List (Nat × Bounds)) (containsB : Nat → ℚ × ℚ → Bool)
    (dist : ℚ × ℚ → ℚ × ℚ → ℚ) (pi : ℚ)
    (invert : ℚ × ℚ → Except Unit (Option (JsNumber × JsNumber)))
    (point : ℚ × ℚ) (lon lat : ℚ)
    (hinv : invert point = .ok (some (.num lon, .num lat)))
    (hlat : |lat| ≤ 90)
    (hlon1 : -150 ≤ lon) (hlon2 : lon ≤ 150)
    (hspecial : ∀ cb ∈ circles, cb.2.isSpecialRegion = true →
      containsB cb.1 (lon, lat) = false)
    (hsound : ∀ cb ∈ circles, containsB cb.1 (lon, lat) = true →
      getGridCell (lon, lat) ∈ cellsOf pi cb.2 ∧
      (cb.2.isPolar = true ∨ cb.2.crossesAntimeridian = true ∨
        dist cb.2.center (lon, lat) ≤ cb.2.radius)) :
    getCountryAtPointSlow (pureWorld circles containsB dist pi)
        (initializeSpatialGrid pi circles) invert point
      = bruteForceClassify circles containsB (lon, lat) := by
  have hval : isValidCoordinate (JsNumber.num lon, JsNumber.num lat) = true := by
    simp [isValidCoordinate, JsNumber.isNaNb, JsNumber.isFiniteb,
      JsNumber.absLe, hlat]
  have hwl : wrappedLons lon = [lon] := by
    simp [wrappedLons, show ¬(lon > 150) from by linarith,
      show ¬(lon < -150) from by linarith]
  have hspec_none : loopFilteredContains (pureWorld circles containsB dist pi)
      (fun b => b.isSpecialRegion) (wrappedLons lon) lat circles = .ok none := by
    apply loopFilteredContains_pure_none
    intro cb hcb hk
    rw [hwl]
    simp [hspecial cb hcb hk]
  have h1 : ∀ x ∈ circles, candidatePasses containsB dist [lon] lat x = true →
      containsB x.1 (lon, lat) = true := by
    intro x hx hq
    unfold candidatePasses at hq
    by_cases hflag : (x.2.isPolar || x.2.crossesAntimeridian) = true
    · rw [if_pos hflag] at hq
      simpa using hq
    · rw [if_neg hflag] at hq
      simp only [Bool.and_eq_true] at hq
      simpa using hq.2
  have h2 : ∀ x ∈ circles, containsB x.1 (lon, lat) = true →
      (decide ((cellsOf pi x.2).count (getGridCell (lon, lat)) ≠ 0)) = true ∧
      candidatePasses containsB dist [lon] lat x = true := by
    intro x hx hp
    obtain ⟨hcell, hflags⟩ := hsound x hx hp
    constructor
    · simp only [decide_eq_true_eq]
      exact fun h0 => (List.count_eq_zero.mp h0) hcell
    · unfold candidatePasses
      by_cases hflag : (x.2.isPolar || x.2.crossesAntimeridian) = true
      · rw [if_pos hflag]
        simpa using hp
      · rw [if_neg hflag]
        rcases hflags with hf | hf | hf
        · rw [hf] at hflag
          simp at hflag
        · rw [hf] at hflag
          simp at hflag
        · simp [hp, hf]
  have htail : candidateLoop (pureWorld circles containsB dist pi)
      (wrappedLons lon) lat
      (dedupFirst ((wrappedLons lon).flatMap (fun tl =>
        initializeSpatialGrid pi circles (getGridCell (tl, lat)))))
      = .ok ((circles.find? (fun cb => containsB cb.1 (lon, lat))).map
        (fun cb => cb.1)) := by
    rw [hwl]
    simp only [List.flatMap_cons, List.flatMap_nil, List.append_nil]
    rw [initializeSpatialGrid_lookup pi circles (getGridCell (lon, lat)),
      candidateLoop_pure, find?_dedupFirst,
      find?_flatMap_replicate (candidatePasses containsB dist [lon] lat)
        (fun cc => (cellsOf pi cc.2).count (getGridCell (lon, lat))),
      find?_filter_transfer (fun cb => containsB cb.1 (lon, lat))
        (candidatePasses containsB dist [lon] lat) _ circles h1 h2]
  have hcore : classifyCore (pureWorld circles containsB dist pi)
      (initializeSpatialGrid pi circles) lon lat
      = .ok (bruteForceClassify circles containsB (lon, lat)) := by
    simp only [classifyCore]
    rw [if_neg (show ¬(lat > 50 ∧ lon < -150) from fun h => absurd h.2 (by linarith)),
      show (pureWorld circles containsB dist pi).circles = circles from rfl]
    by_cases hhigh : (|lat| > 60 ∨ (lon > 150 ∨ lon < -150))
    · rw [if_pos hhigh, hspec_none, htail]
      rfl
    · rw [if_neg hhigh, htail]
      rfl
  unfold getCountryAtPointSlow
  simp only [getCountryAtPointSlowE, hinv, hval, if_true]
  rw [show (JsNumber.num lon).toRat = lon from rfl,
    show (JsNumber.num lat).toRat = lat from rfl,
    wrapLongitude_eq_self lon (by linarith) hlon2, hcore]

/-- Claim C1 witness: one standard country whose circle covers the point
(5,5); the pipeline and the brute-force scan agree there. -/
theorem c1_tiered_pipeline_equiv_witness :
    getCountryAtPointSlow
        (pureWorld [(0, ⟨(0, 0), 1/6, false, false, false, "standard"⟩)]
          (fun f c => decide (f = 0 ∧ c = ((5 : ℚ), (5 : ℚ)))) (fun _ _ => 0) 3)
        (initializeSpatialGrid 3
          [(0, ⟨(0, 0), 1/6, false, false, false, "standard"⟩)])
        (fun _ => .ok (some (.num 5, .num 5))) (1, 2)
      = bruteForceClassify [(0, ⟨(0, 0), 1/6, false, false, false, "standard"⟩)]
          (fun f c => decide (f = 0 ∧ c = ((5 : ℚ), (5 : ℚ)))) (5, 5) := by
  apply c1_tiered_pipeline_equiv _ _ _ _ _ _ 5 5 rfl (by norm_num) (by norm_num)
    (by norm_num)
  · intro cb hcb hs
    rw [List.mem_singleton] at hcb
    subst hcb
    simp at hs
  · intro cb hcb hp
    rw [List.mem_singleton] at hcb
    subst hcb
    refine ⟨?_, Or.inr (Or.inr (by norm_num))⟩
    have hcell : getGridCell ((5 : ℚ), 5) = (0, jsWrapKey 0) := by
      unfold getGridCell
      norm_num
    rw [hcell]
    simp only [cellsOf]
    norm_num
    decide

/-- Claim C6: the point classifier never propagates an exception.  If
the inverse-projected coordinate has a non-finite component or its
latitude exceeds 90 in absolute value, the result is null; an exception
raised by the inversion itself is caught and yields null; and whenever
the try-block body raises, the catch clause classifies the point as
null (ocean). -/
theorem c6_classification_never_throws :
    (∀ (w : GeoWorld) (grid : Int × Int → List (Nat × Bounds))
        (invert : ℚ × ℚ → Except Unit (Option (JsNumber × JsNumber)))
        (point : ℚ × ℚ) (lonJ latJ : JsNumber),
      invert point = .ok (some (lonJ, latJ)) →
      (lonJ.isFiniteb = false ∨ latJ.isFiniteb = false ∨
        ∃ q : ℚ, latJ = .num q ∧ 90 < |q|) →
      getCountryAtPointSlow w grid invert point = none) ∧
    (∀ (w : GeoWorld) (grid : Int × Int → List (Nat × Bounds))
        (invert : ℚ × ℚ → Except Unit (Option (JsNumber × JsNumber)))
        (point : ℚ × ℚ) (e : Unit), invert point = .error e →
      getCountryAtPointSlow w grid invert point = none) ∧
    (∀ (w : GeoWorld) (grid : Int × Int → List (Nat × Bounds))
        (invert : ℚ × ℚ → Except Unit (Option (JsNumber × JsNumber)))
        (point : ℚ × ℚ) (e : Unit),
      getCountryAtPointSlowE w grid invert point = .error e →
      getCountryAtPointSlow w grid invert point = none) := by
  refine ⟨?_, ?_, ?_⟩
  · intro w grid invert point lonJ latJ hinv hbad
    have hval : isValidCoordinate (lonJ, latJ) = false := by
      rcases hbad with h | h | ⟨q, hq, hgt⟩
      · cases lonJ <;> simp_all [isValidCoordinate, JsNumber.isNaNb,
          JsNumber.isFiniteb, JsNumber.absLe]
      · cases latJ <;> simp_all [isValidCoordinate, JsNumber.isNaNb,
          JsNumber.isFiniteb, JsNumber.absLe]
      · subst hq
        simp [isValidCoordinate, JsNumber.absLe, not_le.mpr hgt]
    simp only [getCountryAtPointSlow, getCountryAtPointSlowE, hinv, hval,
      Bool.false_eq_true, if_false]
  · intro w grid invert point e hinv
    simp only [getCountryAtPointSlow, getCountryAtPointSlowE, hinv]
  · intro w grid invert point e hE
    unfold getCountryAtPointSlow
    rw [hE]

/-- Claim C6 witness: an inversion that raises is caught and the point
classified as ocean. -/
theorem c6_classification_never_throws_witness :
    getCountryAtPointSlow (pureWorld [] (fun _ _ => false) (fun _ _ => 0) 3)
      (fun _ => []) (fun _ => .error ()) (0, 0) = none :=
  c6_classification_never_throws.2.1
    (pureWorld [] (fun _ _ => false) (fun _ _ => 0) 3) (fun _ => [])
    (fun _ => .error ()) (0, 0) () rfl
